import Mathlib

/-!
Verification of the wildlife-api candidate scoring endpoints.

Shallow embedding of `src/app/rerank_with_weights_tool.py` (`rerank_with_weights`)
and `src/app/similarity_tools.py` (`identify_species`).  Machine floats are
modelled as real numbers; a second, IEEE-special-value model (`FloatVal`) is
used where a claim is about NaN/Infinity propagation.  Presentation-only pieces
of the handlers (the `rationale` f-string and the `image_colors` /
`species_colors` dictionaries echoed into the response) are omitted from the
embedded response records; nothing below depends on them.

Database access (`session.query(SpeciesEmbedding).filter_by(species=...)` and
the `usf_rank_species_candidates` SQL function) is modelled by explicit
parameters: a lookup function `Db` and a pre-fetched row list, so that each
handler is a pure function of its request and the database state it reads.
-/

/-- A row of the `SpeciesEmbedding` table (`db/species_model.py`, loaded via
`session.query(SpeciesEmbedding).filter_by(species=...).first()`).  Embedding
columns are nullable, which both handlers check. -/
structure DbRow where
  common_name : String
  species : String
  ecoregion_code : Option String
  image_embedding : Option (List ℝ)
  text_embedding : Option (List ℝ)

/-- The species-embedding table: what `filter_by(species=id).first()` returns. -/
def Db : Type := String → Option DbRow

/-- `RerankRequest` of `rerank_with_weights_tool.py` (defaults 0.6/0.4 are
supplied by pydantic and irrelevant to the embedding). -/
structure RerankRequest where
  image_id : ℤ
  embedding : List ℝ
  top_candidates : List String
  image_weight : ℝ
  text_weight : ℝ

/-- `Candidate` response model of `rerank_with_weights_tool.py`. -/
structure Candidate where
  common_name : String
  species : String
  eco_code : String
  image_similarity : ℝ
  text_similarity : ℝ
  combined_score : ℝ
  probability : ℝ

/-- `RerankResponse` (the `rationale` presentation string is omitted). -/
structure RerankResponse where
  top_candidates : List Candidate
  best_match : Candidate

/-- A raised `fastapi.HTTPException`: status code and detail string. -/
structure HttpError where
  status : ℕ
  detail : String

/-- One entry of the handler's `scored_candidates` list (the 6-tuple built in
the loop of `rerank_with_weights`). -/
structure Scored where
  common_name : String
  species : String
  eco : String
  img : ℝ
  txt : ℝ
  combined : ℝ

def dummyCandidate : Candidate := ⟨"", "", "", 0, 0, 0, 0⟩

def dummyResponse : RerankResponse := ⟨[], dummyCandidate⟩

def dummyScored : Scored := ⟨"", "", "", 0, 0, 0⟩

def dummyRow : DbRow := ⟨"", "", none, none, none⟩

/-- `np.dot` on equal-length vectors. -/
def dotR (a b : List ℝ) : ℝ := (List.zipWith (fun x y => x * y) a b).sum

/-- `np.linalg.norm`. -/
noncomputable def normR (a : List ℝ) : ℝ := Real.sqrt (dotR a a)

/-- `cosine_similarity` as defined identically in both handler files:
`np.dot(a, b) / (np.linalg.norm(a) * np.linalg.norm(b))`. -/
noncomputable def cosine_similarity (a b : List ℝ) : ℝ :=
  dotR a b / (normR a * normR b)

/-- `exp_scores = np.exp(scores)`: the handlers exponentiate the raw combined
scores, with no max-subtraction. -/
noncomputable def exp_scores (scores : List ℝ) : List ℝ := scores.map Real.exp

/-- `probs = exp_scores / np.sum(exp_scores)`: the probability normalizer
exactly as both handlers compute it (an un-shifted softmax). -/
noncomputable def softmax (scores : List ℝ) : List ℝ :=
  (exp_scores scores).map (fun e => e / (exp_scores scores).sum)

/-- `np.max` on a nonempty list (0 for the empty list, which never occurs). -/
def listMax : List ℝ → ℝ
  | [] => 0
  | x :: xs => xs.foldl max x

/-- Loop of `np.argmax`: carries (best index, best value) and the index of the
next element; a later element replaces the best only when strictly greater,
so the FIRST maximal element wins. -/
noncomputable def argmaxAux : ℕ → ℝ → ℕ → List ℝ → ℕ
  | bi, _, _, [] => bi
  | bi, bv, i, x :: xs =>
      if bv < x then argmaxAux i x (i + 1) xs else argmaxAux bi bv (i + 1) xs

/-- `int(np.argmax(probs))`: index of the first maximum (0 on `[]`, unused). -/
noncomputable def argmaxIdx : List ℝ → ℕ
  | [] => 0
  | x :: xs => argmaxAux 0 x 1 xs

/-- `i` is the first index of `l` attaining the maximum value of `l`. -/
def isFirstMaxIdx (l : List ℝ) (i : ℕ) : Prop :=
  i < l.length ∧ (∀ j, j < l.length → l.getD j 0 ≤ l.getD i 0) ∧
    ∀ j, j < i → l.getD j 0 < l.getD i 0

/-- The loop body of `rerank_with_weights` lines 52-67: look each requested
species up in the table, `continue` when the row is missing or either stored
embedding is null, otherwise recompute both cosine similarities against the
request's embedding and combine them with the request's weights. -/
noncomputable def scoredCandidates (iw tw : ℝ) (emb : List ℝ) (db : Db) :
    List String → List Scored
  | [] => []
  | id :: rest =>
      match db id with
      | none => scoredCandidates iw tw emb db rest
      | some row =>
          match row.image_embedding, row.text_embedding with
          | some ie, some te =>
              ⟨row.common_name, row.species, row.ecoregion_code.getD "",
                cosine_similarity emb ie, cosine_similarity emb te,
                iw * cosine_similarity emb ie + tw * cosine_similarity emb te⟩ ::
                scoredCandidates iw tw emb db rest
          | _, _ => scoredCandidates iw tw emb db rest

/-- Whether `rerank_with_weights` keeps a requested species id: the row exists
and both stored embeddings are non-null. -/
def resolvable (db : Db) (id : String) : Bool :=
  match db id with
  | none => false
  | some row => row.image_embedding.isSome && row.text_embedding.isSome

/-- What one kept id contributes to `scored_candidates`. -/
noncomputable def scoreOf (iw tw : ℝ) (emb : List ℝ) (db : Db) (id : String) : Scored :=
  match db id with
  | none => dummyScored
  | some row =>
      match row.image_embedding, row.text_embedding with
      | some ie, some te =>
          ⟨row.common_name, row.species, row.ecoregion_code.getD "",
            cosine_similarity emb ie, cosine_similarity emb te,
            iw * cosine_similarity emb ie + tw * cosine_similarity emb te⟩
      | _, _ => dummyScored

/-- Building one `Candidate(...)` of the response from a scored tuple and its
probability. -/
def toCandidate (s : Scored) (p : ℝ) : Candidate :=
  ⟨s.common_name, s.species, s.eco, s.img, s.txt, s.combined, p⟩

/-- Lines 72-89 of `rerank_with_weights`: softmax over the combined scores,
the `candidates` list in loop order, and `best = candidates[int(np.argmax(probs))]`. -/
noncomputable def responseOf (scored : List Scored) : RerankResponse :=
  let probs := softmax (scored.map (fun s => s.combined))
  let candidates := List.zipWith toCandidate scored probs
  ⟨candidates, candidates.getD (argmaxIdx probs) dummyCandidate⟩

/-- The `rerank_with_weights` handler: score the requested candidates against
the table, 404 when none survive, otherwise normalize and pick the best. -/
noncomputable def rerank_with_weights (req : RerankRequest) (db : Db) :
    Except HttpError RerankResponse :=
  match scoredCandidates req.image_weight req.text_weight req.embedding db
      req.top_candidates with
  | [] => Except.error ⟨404, "No valid candidates with embeddings found"⟩
  | s :: rest => Except.ok (responseOf (s :: rest))

/-- The status code of a failed call, `none` on success. -/
def errStatus {α : Type} : Except HttpError α → Option ℕ
  | Except.error e => some e.status
  | Except.ok _ => none

/-! ## The `identify_species` handler (`src/app/similarity_tools.py`) -/

/-- `IdentificationRequest` of `similarity_tools.py`. -/
structure IdentRequest where
  image_id : ℤ
  embedding : List ℝ
  lat : ℝ
  lon : ℝ
  top_n : ℤ
  image_weight : ℝ
  text_weight : ℝ
  color_weight : ℝ

/-- One row returned by the `wildlife.usf_rank_species_candidates` SQL
function (an external retrieval collaborator; its result is an input here). -/
structure RankedRow where
  species : String
  common_name : String
  image_path : String
  distance : ℝ
  eco_code : String

/-- `Candidate` response model of `similarity_tools.py` (the echoed
`image_colors` / `species_colors` dictionaries are presentation-only and
omitted). -/
structure CandidateI where
  common_name : String
  species : String
  eco_code : String
  image_similarity : ℝ
  text_similarity : ℝ
  color_similarity : ℝ
  combined_score : ℝ
  probability : ℝ

/-- `IdentificationResponse` (without the `rationale` presentation string). -/
structure IdentResponse where
  top_candidates : List CandidateI
  best_match : CandidateI

/-- One entry of the handler's `scored_candidates` list. -/
structure ScoredI where
  common_name : String
  species : String
  eco : String
  img : ℝ
  txt : ℝ
  color : ℝ
  combined : ℝ

def dummyCandidateI : CandidateI := ⟨"", "", "", 0, 0, 0, 0, 0⟩

def dummyResponseI : IdentResponse := ⟨[], dummyCandidateI⟩

/-- Modelled from the spec: `tools/color_utils.py` (`get_image_colors`,
`get_species_color_profile`, `compute_color_similarity`, `get_color_vocab`)
is not under `src/`.  Per the spec, the color pipeline yields one similarity
scalar per candidate when that candidate has color data, and a candidate with
no color data contributes exactly 0.0 rather than a missing-data error.  The
pipeline's per-species raw output is abstracted as an `Option ℝ` and this
function applies the spec-mandated defaulting. -/
def colorSimilarityValue (raw : Option ℝ) : ℝ := raw.getD 0

/-- The external state `identify_species` reads: the ranked-candidate rows the
SQL function returns, the species-embedding table, and the (abstracted,
spec-modelled) per-species raw color similarity. -/
structure IdentifyDeps where
  ranked : List RankedRow
  speciesDb : Db
  colorRaw : String → Option ℝ

/-- The scoring loop of `identify_species` lines 93-110: for each ranked row,
look the species up, `continue` when the row is missing or its text embedding
is null (the image embedding is NOT checked here, unlike the rerank handler),
then `img_sim = 1 - distance`, `text_sim` by cosine against the stored text
embedding, the color similarity, and the 3-weight combination. -/
noncomputable def scoredIList (iw tw cw : ℝ) (emb : List ℝ) (db : Db)
    (colorRaw : String → Option ℝ) : List RankedRow → List ScoredI
  | [] => []
  | r :: rest =>
      match db r.species with
      | none => scoredIList iw tw cw emb db colorRaw rest
      | some row =>
          match row.text_embedding with
          | none => scoredIList iw tw cw emb db colorRaw rest
          | some te =>
              ⟨r.common_name, r.species, r.eco_code,
                1 - r.distance, cosine_similarity emb te,
                colorSimilarityValue (colorRaw r.common_name),
                iw * (1 - r.distance) + tw * cosine_similarity emb te +
                  cw * colorSimilarityValue (colorRaw r.common_name)⟩ ::
                scoredIList iw tw cw emb db colorRaw rest

/-- Building one `Candidate(...)` of the identification response. -/
def toCandidateI (s : ScoredI) (p : ℝ) : CandidateI :=
  ⟨s.common_name, s.species, s.eco, s.img, s.txt, s.color, s.combined, p⟩

/-- Lines 116-136 of `identify_species`: identical normalize-and-select code
to the rerank handler. -/
noncomputable def responseOfI (scored : List ScoredI) : IdentResponse :=
  let probs := softmax (scored.map (fun s => s.combined))
  let candidates := List.zipWith toCandidateI scored probs
  ⟨candidates, candidates.getD (argmaxIdx probs) dummyCandidateI⟩

/-- The `try:` block of `identify_species`: fetch the ranked candidates and
raise `HTTPException(404, "No candidates found")` when there are none, else
run the scoring loop.  (The only exception site the code itself contains is
that `raise`; collaborator failures such as a broken DB connection are
outside the model.) -/
noncomputable def identifyTryBlock (req : IdentRequest) (deps : IdentifyDeps) :
    Except HttpError (List ScoredI) :=
  match deps.ranked with
  | [] => Except.error ⟨404, "No candidates found"⟩
  | r :: rest =>
      Except.ok (scoredIList req.image_weight req.text_weight req.color_weight
        req.embedding deps.speciesDb deps.colorRaw (r :: rest))

/-- The `identify_species` handler.  Its `except Exception as e:` clause
catches every exception raised inside the `try:` block — `HTTPException`
included, since `HTTPException` subclasses `Exception` — and re-raises it as
`HTTPException(500, f"DB operation failed: {e}")`, where `str(e)` renders as
`"{status_code}: {detail}"`.  The empty-`scored_candidates` 404 sits OUTSIDE
the `try:` and is surfaced unchanged. -/
noncomputable def identify_species (req : IdentRequest) (deps : IdentifyDeps) :
    Except HttpError IdentResponse :=
  match identifyTryBlock req deps with
  | Except.error e =>
      Except.error ⟨500, "DB operation failed: " ++ Nat.repr e.status ++ ": " ++ e.detail⟩
  | Except.ok [] => Except.error ⟨404, "No candidates with valid text embeddings"⟩
  | Except.ok (s :: rest) => Except.ok (responseOfI (s :: rest))

/-- Whether `identify_species` keeps a ranked row's species: the table row
exists and its TEXT embedding is non-null. -/
def textResolvable (db : Db) (id : String) : Bool :=
  match db id with
  | none => false
  | some row => row.text_embedding.isSome

/-- What one kept ranked row contributes to the identification scoring loop. -/
noncomputable def scoreOfI (iw tw cw : ℝ) (emb : List ℝ) (db : Db)
    (colorRaw : String → Option ℝ) (r : RankedRow) : ScoredI :=
  match db r.species with
  | none => ⟨"", "", "", 0, 0, 0, 0⟩
  | some row =>
      match row.text_embedding with
      | none => ⟨"", "", "", 0, 0, 0, 0⟩
      | some te =>
          ⟨r.common_name, r.species, r.eco_code,
            1 - r.distance, cosine_similarity emb te,
            colorSimilarityValue (colorRaw r.common_name),
            iw * (1 - r.distance) + tw * cosine_similarity emb te +
              cw * colorSimilarityValue (colorRaw r.common_name)⟩

/-! ## IEEE special-value model

`FloatVal` refines the real-number model with the IEEE-754 special values NaN
and ±Infinity, following the IEEE propagation rules for the operations the
handlers use (any NaN operand yields NaN; `0.0 / 0.0` is NaN; and so on).
Finite arithmetic is kept exact (rounding, overflow and signed zero are not
modelled here — overflow of `np.exp` is treated separately); the model exists
to ask whether a non-finite similarity value is ever rejected, which is a
question about special-value propagation only. -/
inductive FloatVal : Type
  | fin (x : ℝ)
  | inf
  | ninf
  | nan

namespace FloatVal

noncomputable def add : FloatVal → FloatVal → FloatVal
  | nan, _ => nan
  | _, nan => nan
  | inf, ninf => nan
  | ninf, inf => nan
  | inf, _ => inf
  | _, inf => inf
  | ninf, _ => ninf
  | _, ninf => ninf
  | fin x, fin y => fin (x + y)

noncomputable def mul : FloatVal → FloatVal → FloatVal
  | nan, _ => nan
  | _, nan => nan
  | inf, inf => inf
  | inf, ninf => ninf
  | ninf, inf => ninf
  | ninf, ninf => inf
  | inf, fin y => if y = 0 then nan else if 0 < y then inf else ninf
  | fin x, inf => if x = 0 then nan else if 0 < x then inf else ninf
  | ninf, fin y => if y = 0 then nan else if 0 < y then ninf else inf
  | fin x, ninf => if x = 0 then nan else if 0 < x then ninf else inf
  | fin x, fin y => fin (x * y)

noncomputable def div : FloatVal → FloatVal → FloatVal
  | nan, _ => nan
  | _, nan => nan
  | inf, inf => nan
  | inf, ninf => nan
  | ninf, inf => nan
  | ninf, ninf => nan
  | inf, fin y => if 0 ≤ y then inf else ninf
  | ninf, fin y => if 0 ≤ y then ninf else inf
  | fin _, inf => fin 0
  | fin _, ninf => fin 0
  | fin x, fin y =>
      if y = 0 then (if x = 0 then nan else if 0 < x then inf else ninf)
      else fin (x / y)

/-- `np.exp` on a special value (finite overflow is not modelled here). -/
noncomputable def exp : FloatVal → FloatVal
  | nan => nan
  | inf => inf
  | ninf => fin 0
  | fin x => fin (Real.exp x)

/-- IEEE `<`: any comparison against NaN is false. -/
noncomputable def flt : FloatVal → FloatVal → Bool
  | nan, _ => false
  | _, nan => false
  | fin x, fin y => decide (x < y)
  | fin _, inf => true
  | ninf, fin _ => true
  | ninf, inf => true
  | inf, _ => false
  | _, ninf => false

/-- `np.sum`. -/
noncomputable def listSum : List FloatVal → FloatVal
  | [] => fin 0
  | x :: xs => add x (listSum xs)

end FloatVal

/-- `cosine_similarity` in the special-value model: the request and the stored
embeddings hold finite floats, so the dot product and the norm product are
finite and exact; the final division follows IEEE (a zero vector makes it
`0.0 / 0.0`, i.e. NaN). -/
noncomputable def cosineF (a b : List ℝ) : FloatVal :=
  FloatVal.div (FloatVal.fin (dotR a b)) (FloatVal.fin (normR a * normR b))

/-- `scored_candidates` of `rerank_with_weights` in the special-value model. -/
noncomputable def scoredCandidatesF (iw tw : ℝ) (emb : List ℝ) (db : Db) :
    List String → List (Scored × FloatVal × FloatVal × FloatVal)
  | [] => []
  | id :: rest =>
      match db id with
      | none => scoredCandidatesF iw tw emb db rest
      | some row =>
          match row.image_embedding, row.text_embedding with
          | some ie, some te =>
              (⟨row.common_name, row.species, row.ecoregion_code.getD "", 0, 0, 0⟩,
                cosineF emb ie, cosineF emb te,
                FloatVal.add (FloatVal.mul (FloatVal.fin iw) (cosineF emb ie))
                  (FloatVal.mul (FloatVal.fin tw) (cosineF emb te))) ::
                scoredCandidatesF iw tw emb db rest
          | _, _ => scoredCandidatesF iw tw emb db rest

/-- The probability normalizer in the special-value model: exactly the code's
`np.exp(scores) / np.sum(np.exp(scores))` with IEEE propagation. -/
noncomputable def softmaxF (scores : List FloatVal) : List FloatVal :=
  (scores.map FloatVal.exp).map
    (fun e => FloatVal.div e (FloatVal.listSum (scores.map FloatVal.exp)))

/-- `np.argmax` in the special-value model (IEEE comparison semantics). -/
noncomputable def argmaxAuxF : ℕ → FloatVal → ℕ → List FloatVal → ℕ
  | bi, _, _, [] => bi
  | bi, bv, i, x :: xs =>
      if FloatVal.flt bv x then argmaxAuxF i x (i + 1) xs
      else argmaxAuxF bi bv (i + 1) xs

noncomputable def argmaxIdxF : List FloatVal → ℕ
  | [] => 0
  | x :: xs => argmaxAuxF 0 x 1 xs

/-- A response candidate in the special-value model. -/
structure CandidateF where
  common_name : String
  species : String
  eco_code : String
  image_similarity : FloatVal
  text_similarity : FloatVal
  combined_score : FloatVal
  probability : FloatVal

structure RerankResponseF where
  top_candidates : List CandidateF
  best_match : CandidateF

def dummyCandidateF : CandidateF :=
  ⟨"", "", "", FloatVal.fin 0, FloatVal.fin 0, FloatVal.fin 0, FloatVal.fin 0⟩

def toCandidateF (s : Scored × FloatVal × FloatVal × FloatVal) (p : FloatVal) :
    CandidateF :=
  ⟨s.1.common_name, s.1.species, s.1.eco, s.2.1, s.2.2.1, s.2.2.2, p⟩

/-- `rerank_with_weights` in the special-value model: the control flow is the
code's — there is no finiteness check anywhere, so NaN similarities flow
through combination, softmax and argmax into a 200 response. -/
noncomputable def rerankF (req : RerankRequest) (db : Db) :
    Except HttpError RerankResponseF :=
  match scoredCandidatesF req.image_weight req.text_weight req.embedding db
      req.top_candidates with
  | [] => Except.error ⟨404, "No valid candidates with embeddings found"⟩
  | s :: rest =>
      Except.ok
        (let scored := s :: rest
         let probs := softmaxF (scored.map (fun t => t.2.2.2))
         let candidates := List.zipWith toCandidateF scored probs
         ⟨candidates, candidates.getD (argmaxIdxF probs) dummyCandidateF⟩)

/-! ## Constants and concrete fixtures used in claim statements and witnesses -/

/-- The largest finite IEEE-754 double, `(2 - 2^-52) * 2^1023` (≈ 1.798e308):
any real intermediate exceeding it overflows `float64` to `inf`. -/
noncomputable def maxFiniteDouble : ℝ := (2 - 2 ^ (-52 : ℤ)) * 2 ^ (1023 : ℕ)

/-- A fully populated species row. -/
def fxRow : DbRow := ⟨"Gray Wolf", "canis-lupus", some "NA0528", some [1, 0], some [0, 1]⟩

/-- A table resolving every id to `fxRow`. -/
def fxDb : Db := fun _ => some fxRow

noncomputable def fxReq : RerankRequest := ⟨1, [1, 0], ["canis-lupus"], 6 / 10, 4 / 10⟩

/-- The successful response of the rerank fixture call. -/
noncomputable def fxRes : RerankResponse :=
  match rerank_with_weights fxReq fxDb with
  | Except.ok r => r
  | Except.error _ => dummyResponse

noncomputable def fxIRow : RankedRow := ⟨"canis-lupus", "Gray Wolf", "img.jpg", 1 / 10, "NA0528"⟩

noncomputable def fxIDeps : IdentifyDeps := ⟨[fxIRow], fun _ => some fxRow, fun _ => some (1 / 2)⟩

noncomputable def fxIReq : IdentRequest := ⟨1, [1, 0], 45, -110, 5, 6 / 10, 4 / 10, 3 / 10⟩

/-- The successful response of the identification fixture call. -/
noncomputable def fxIRes : IdentResponse :=
  match identify_species fxIReq fxIDeps with
  | Except.ok r => r
  | Except.error _ => dummyResponseI

/-- An identification request whose ranked-candidate SQL query returns no
rows (the C4 failing input). -/
noncomputable def c4IReq : IdentRequest := ⟨2, [1, 0], 45, -110, 5, 6 / 10, 4 / 10, 0⟩

def c4IDeps : IdentifyDeps := ⟨[], fun _ => some fxRow, fun _ => none⟩

/-- A rerank request with an empty candidate list. -/
noncomputable def c4RReq : RerankRequest := ⟨2, [1, 0], [], 6 / 10, 4 / 10⟩

/-- A rerank request whose embedding is the zero vector: its cosine against
any stored embedding is `0.0 / 0.0`, i.e. NaN (the C5 failing input). -/
noncomputable def c5Req : RerankRequest := ⟨3, [0], ["canis-lupus"], 6 / 10, 4 / 10⟩

def c5Row : DbRow := ⟨"Gray Wolf", "canis-lupus", some "NA0528", some [1], some [1]⟩

def c5Db : Db := fun _ => some c5Row

/-- C7 fixture: two candidates whose combined scores come out ascending. -/
def c7RowA : DbRow := ⟨"A", "sp-a", some "E1", some [0, 1], some [1, 0]⟩

def c7RowB : DbRow := ⟨"B", "sp-b", some "E1", some [1, 0], some [1, 0]⟩

def c7Db : Db := fun id => if id = "sp-a" then some c7RowA else some c7RowB

/-- Weights (1, 0): combined score is the image cosine alone. -/
noncomputable def c7Req : RerankRequest := ⟨4, [1, 0], ["sp-a", "sp-b"], 1, 0⟩

/-- C9 fixture: the same request against two tables that differ only in the
stored image embedding of the requested species. -/
noncomputable def c9Req : RerankRequest := ⟨5, [1, 0], ["canis-lupus"], 1, 0⟩

def c9RowA : DbRow := ⟨"A", "canis-lupus", some "E1", some [1, 0], some [1, 0]⟩

def c9RowB : DbRow := ⟨"A", "canis-lupus", some "E1", some [0, 1], some [1, 0]⟩

def c9DbA : Db := fun _ => some c9RowA

def c9DbB : Db := fun _ => some c9RowB

/-- C10 fixture: one resolvable id and one with no table row. -/
def c10Db : Db := fun id => if id = "canis-lupus" then some fxRow else none

noncomputable def c10Req : RerankRequest := ⟨6, [1, 0], ["canis-lupus", "ghost-species"], 6 / 10, 4 / 10⟩

/-- The successful response of the C10 fixture call. -/
noncomputable def c10Res : RerankResponse :=
  match rerank_with_weights c10Req c10Db with
  | Except.ok r => r
  | Except.error _ => dummyResponse

/-! ## Helper lemmas -/

theorem fxRes_ok : rerank_with_weights fxReq fxDb = Except.ok fxRes := rfl

theorem fxIRes_ok : identify_species fxIReq fxIDeps = Except.ok fxIRes := rfl

theorem c10Res_ok : rerank_with_weights c10Req c10Db = Except.ok c10Res := rfl

theorem sum_map_div (l : List ℝ) (c : ℝ) :
    (l.map (fun x => x / c)).sum = l.sum / c := by
  induction l with
  | nil => simp
  | cons x xs ih => simp [ih, add_div]

theorem sum_map_exp_nonneg (l : List ℝ) : 0 ≤ (l.map Real.exp).sum := by
  induction l with
  | nil => simp
  | cons x xs ih =>
      simp only [List.map_cons, List.sum_cons]
      have := Real.exp_pos x
      linarith

theorem sum_exp_scores_pos (x : ℝ) (xs : List ℝ) :
    0 < (exp_scores (x :: xs)).sum := by
  simp only [exp_scores, List.map_cons, List.sum_cons]
  have h1 := Real.exp_pos x
  have h2 := sum_map_exp_nonneg xs
  linarith

theorem softmax_length (l : List ℝ) : (softmax l).length = l.length := by
  simp [softmax, exp_scores]

theorem getD_mem_of_lt {α : Type} (l : List α) (n : ℕ) (d : α) (h : n < l.length) :
    l.getD n d ∈ l := by
  rw [List.getD_eq_getElem l d h]
  exact List.getElem_mem h

theorem argmaxAux_spec (xs : List ℝ) : ∀ (bi : ℕ) (bv : ℝ) (i : ℕ),
    (argmaxAux bi bv i xs = bi ∧ ∀ x ∈ xs, x ≤ bv) ∨
    (∃ j, j < xs.length ∧ argmaxAux bi bv i xs = i + j ∧ bv < xs.getD j 0 ∧
      (∀ x ∈ xs, x ≤ xs.getD j 0) ∧ ∀ k, k < j → xs.getD k 0 < xs.getD j 0) := by
  induction xs with
  | nil =>
      intro bi bv i
      left
      exact ⟨rfl, by simp⟩
  | cons x xs ih =>
      intro bi bv i
      by_cases h : bv < x
      · rcases ih i x (i + 1) with ⟨heq, hall⟩ | ⟨j, hj, heq, hlt, hmax, hfirst⟩
        · right
          refine ⟨0, by simp, ?_, ?_, ?_, ?_⟩
          · simpa [argmaxAux, if_pos h] using heq
          · simpa using h
          · intro y hy
            rcases List.mem_cons.mp hy with rfl | hy
            · simp
            · simpa using hall y hy
          · intro k hk
            omega
        · right
          refine ⟨j + 1, by simpa using hj, ?_, ?_, ?_, ?_⟩
          · have h2 : argmaxAux bi bv i (x :: xs) = argmaxAux i x (i + 1) xs := by
              simp [argmaxAux, if_pos h]
            rw [h2, heq]
            omega
          · simpa using lt_trans h hlt
          · intro y hy
            rcases List.mem_cons.mp hy with rfl | hy
            · simpa using le_of_lt hlt
            · simpa using hmax y hy
          · intro k hk
            cases k with
            | zero => simpa using hlt
            | succ k => simpa using hfirst k (by omega)
      · rcases ih bi bv (i + 1) with ⟨heq, hall⟩ | ⟨j, hj, heq, hlt, hmax, hfirst⟩
        · left
          refine ⟨?_, ?_⟩
          · simpa [argmaxAux, if_neg h] using heq
          · intro y hy
            rcases List.mem_cons.mp hy with rfl | hy
            · exact le_of_not_lt h
            · exact hall y hy
        · right
          refine ⟨j + 1, by simpa using hj, ?_, ?_, ?_, ?_⟩
          · have h2 : argmaxAux bi bv i (x :: xs) = argmaxAux bi bv (i + 1) xs := by
              simp [argmaxAux, if_neg h]
            rw [h2, heq]
            omega
          · simpa using hlt
          · intro y hy
            rcases List.mem_cons.mp hy with rfl | hy
            · simpa using le_trans (le_of_not_lt h) (le_of_lt hlt)
            · simpa using hmax y hy
          · intro k hk
            cases k with
            | zero => simpa using lt_of_le_of_lt (le_of_not_lt h) hlt
            | succ k => simpa using hfirst k (by omega)

theorem argmaxIdx_firstMax (x : ℝ) (xs : List ℝ) :
    isFirstMaxIdx (x :: xs) (argmaxIdx (x :: xs)) := by
  have hidx : argmaxIdx (x :: xs) = argmaxAux 0 x 1 xs := rfl
  rcases argmaxAux_spec xs 0 x 1 with ⟨heq, hall⟩ | ⟨j, hj, heq, hlt, hmax, hfirst⟩
  · rw [hidx, heq]
    refine ⟨by simp, ?_, ?_⟩
    · intro k hk
      cases k with
      | zero => simp
      | succ k =>
          have hk2 : k < xs.length := by simpa using hk
          simpa using hall (xs.getD k 0) (getD_mem_of_lt xs k 0 hk2)
    · intro k hk
      omega
  · have h1j : argmaxIdx (x :: xs) = j + 1 := by rw [hidx, heq]; omega
    rw [h1j]
    refine ⟨by simpa using hj, ?_, ?_⟩
    · intro k hk
      cases k with
      | zero => simpa using le_of_lt hlt
      | succ k =>
          have hk2 : k < xs.length := by simpa using hk
          simpa using hmax (xs.getD k 0) (getD_mem_of_lt xs k 0 hk2)
    · intro k hk
      cases k with
      | zero => simpa using hlt
      | succ k => simpa using hfirst k (by omega)

theorem mem_zipWith_decomp {α β γ : Type} (f : α → β → γ) :
    ∀ (as : List α) (bs : List β) (c : γ), c ∈ List.zipWith f as bs →
      ∃ a ∈ as, ∃ b ∈ bs, c = f a b := by
  intro as
  induction as with
  | nil => simp
  | cons a as ih =>
      intro bs c hc
      cases bs with
      | nil => simp at hc
      | cons b bs =>
          rcases List.mem_cons.mp (by simpa using hc) with h | h
          · exact ⟨a, by simp, b, by simp, h⟩
          · rcases ih bs c h with ⟨a2, ha2, b2, hb2, hcf⟩
            exact ⟨a2, by simp [ha2], b2, by simp [hb2], hcf⟩

theorem zip_map_probability (as : List Scored) :
    ∀ bs : List ℝ, as.length = bs.length →
      (List.zipWith toCandidate as bs).map (fun c => c.probability) = bs := by
  induction as with
  | nil =>
      intro bs h
      cases bs with
      | nil => simp
      | cons b bs => simp at h
  | cons a as ih =>
      intro bs h
      cases bs with
      | nil => simp at h
      | cons b bs => simp [toCandidate, ih bs (by simpa using h)]

theorem zip_map_species (as : List Scored) :
    ∀ bs : List ℝ, as.length = bs.length →
      (List.zipWith toCandidate as bs).map (fun c => c.species) =
        as.map (fun s => s.species) := by
  induction as with
  | nil => intro bs _; simp
  | cons a as ih =>
      intro bs h
      cases bs with
      | nil => simp at h
      | cons b bs => simp [toCandidate, ih bs (by simpa using h)]

theorem zip_map_combined (as : List Scored) :
    ∀ bs : List ℝ, as.length = bs.length →
      (List.zipWith toCandidate as bs).map (fun c => c.combined_score) =
        as.map (fun s => s.combined) := by
  induction as with
  | nil => intro bs _; simp
  | cons a as ih =>
      intro bs h
      cases bs with
      | nil => simp at h
      | cons b bs => simp [toCandidate, ih bs (by simpa using h)]

theorem zip_map_sims (as : List Scored) :
    ∀ bs : List ℝ, as.length = bs.length →
      (List.zipWith toCandidate as bs).map
          (fun c => (c.species, c.image_similarity, c.text_similarity)) =
        as.map (fun s => (s.species, s.img, s.txt)) := by
  induction as with
  | nil => intro bs _; simp
  | cons a as ih =>
      intro bs h
      cases bs with
      | nil => simp at h
      | cons b bs => simp [toCandidate, ih bs (by simpa using h)]

theorem zipI_map_probability (as : List ScoredI) :
    ∀ bs : List ℝ, as.length = bs.length →
      (List.zipWith toCandidateI as bs).map (fun c => c.probability) = bs := by
  induction as with
  | nil =>
      intro bs h
      cases bs with
      | nil => simp
      | cons b bs => simp at h
  | cons a as ih =>
      intro bs h
      cases bs with
      | nil => simp at h
      | cons b bs => simp [toCandidateI, ih bs (by simpa using h)]

theorem zipI_map_species (as : List ScoredI) :
    ∀ bs : List ℝ, as.length = bs.length →
      (List.zipWith toCandidateI as bs).map (fun c => c.species) =
        as.map (fun s => s.species) := by
  induction as with
  | nil => intro bs _; simp
  | cons a as ih =>
      intro bs h
      cases bs with
      | nil => simp at h
      | cons b bs => simp [toCandidateI, ih bs (by simpa using h)]

theorem scoredCandidates_combined (iw tw : ℝ) (emb : List ℝ) (db : Db) :
    ∀ ids : List String, ∀ s ∈ scoredCandidates iw tw emb db ids,
      s.combined = iw * s.img + tw * s.txt := by
  intro ids
  induction ids with
  | nil => simp [scoredCandidates]
  | cons id rest ih =>
      intro s hs
      cases hdb : db id with
      | none =>
          rw [scoredCandidates, hdb] at hs
          exact ih s hs
      | some row =>
          cases hie : row.image_embedding with
          | none =>
              rw [scoredCandidates, hdb] at hs
              simp only [hie] at hs
              exact ih s hs
          | some ie =>
              cases hte : row.text_embedding with
              | none =>
                  rw [scoredCandidates, hdb] at hs
                  simp only [hie, hte] at hs
                  exact ih s hs
              | some te =>
                  rw [scoredCandidates, hdb] at hs
                  simp only [hie, hte] at hs
                  rcases List.mem_cons.mp hs with rfl | hs
                  · rfl
                  · exact ih s hs

theorem scoredCandidates_eq (iw tw : ℝ) (emb : List ℝ) (db : Db) :
    ∀ ids : List String,
      scoredCandidates iw tw emb db ids =
        (ids.filter (fun id => resolvable db id)).map (scoreOf iw tw emb db) := by
  intro ids
  induction ids with
  | nil => simp [scoredCandidates]
  | cons id rest ih =>
      cases hdb : db id with
      | none =>
          have hres : resolvable db id = false := by simp [resolvable, hdb]
          simp [scoredCandidates, hdb, List.filter_cons, hres, ih]
      | some row =>
          cases hie : row.image_embedding with
          | none =>
              have hres : resolvable db id = false := by simp [resolvable, hdb, hie]
              simp [scoredCandidates, hdb, hie, List.filter_cons, hres, ih]
          | some ie =>
              cases hte : row.text_embedding with
              | none =>
                  have hres : resolvable db id = false := by
                    simp [resolvable, hdb, hie, hte]
                  simp [scoredCandidates, hdb, hie, hte, List.filter_cons, hres, ih]
              | some te =>
                  have hres : resolvable db id = true := by
                    simp [resolvable, hdb, hie, hte]
                  simp [scoredCandidates, scoreOf, hdb, hie, hte, List.filter_cons,
                    hres, ih]

theorem scoredIList_eq (iw tw cw : ℝ) (emb : List ℝ) (db : Db)
    (cr : String → Option ℝ) :
    ∀ rows : List RankedRow,
      scoredIList iw tw cw emb db cr rows =
        (rows.filter (fun r => textResolvable db r.species)).map
          (scoreOfI iw tw cw emb db cr) := by
  intro rows
  induction rows with
  | nil => simp [scoredIList]
  | cons r rest ih =>
      cases hdb : db r.species with
      | none =>
          have hres : textResolvable db r.species = false := by
            simp [textResolvable, hdb]
          simp [scoredIList, hdb, List.filter_cons, hres, ih]
      | some row =>
          cases hte : row.text_embedding with
          | none =>
              have hres : textResolvable db r.species = false := by
                simp [textResolvable, hdb, hte]
              simp [scoredIList, hdb, hte, List.filter_cons, hres, ih]
          | some te =>
              have hres : textResolvable db r.species = true := by
                simp [textResolvable, hdb, hte]
              simp [scoredIList, scoreOfI, hdb, hte, List.filter_cons, hres, ih]

theorem scoredIList_combined (iw tw cw : ℝ) (emb : List ℝ) (db : Db)
    (cr : String → Option ℝ) :
    ∀ rows : List RankedRow, ∀ s ∈ scoredIList iw tw cw emb db cr rows,
      s.combined = iw * s.img + tw * s.txt + cw * s.color ∧
        (cr s.common_name = none → s.color = 0) := by
  intro rows
  induction rows with
  | nil => simp [scoredIList]
  | cons r rest ih =>
      intro s hs
      cases hdb : db r.species with
      | none =>
          rw [scoredIList, hdb] at hs
          exact ih s hs
      | some row =>
          cases hte : row.text_embedding with
          | none =>
              rw [scoredIList, hdb] at hs
              simp only [hte] at hs
              exact ih s hs
          | some te =>
              rw [scoredIList, hdb] at hs
              simp only [hte] at hs
              rcases List.mem_cons.mp hs with rfl | hs
              · refine ⟨rfl, ?_⟩
                intro hcr
                simp [colorSimilarityValue, hcr]
              · exact ih s hs

theorem responseOf_top (scored : List Scored) :
    (responseOf scored).top_candidates =
      List.zipWith toCandidate scored (softmax (scored.map (fun s => s.combined))) := rfl

theorem responseOf_best (scored : List Scored) :
    (responseOf scored).best_match =
      (responseOf scored).top_candidates.getD
        (argmaxIdx (softmax (scored.map (fun s => s.combined)))) dummyCandidate := rfl

theorem responseOfI_top (scored : List ScoredI) :
    (responseOfI scored).top_candidates =
      List.zipWith toCandidateI scored (softmax (scored.map (fun s => s.combined))) := rfl

theorem responseOfI_best (scored : List ScoredI) :
    (responseOfI scored).best_match =
      (responseOfI scored).top_candidates.getD
        (argmaxIdx (softmax (scored.map (fun s => s.combined)))) dummyCandidateI := rfl

theorem rerank_ok_decomp (req : RerankRequest) (db : Db) (res : RerankResponse)
    (h : rerank_with_weights req db = Except.ok res) :
    ∃ s rest,
      scoredCandidates req.image_weight req.text_weight req.embedding db
          req.top_candidates = s :: rest ∧
        res = responseOf (s :: rest) := by
  unfold rerank_with_weights at h
  cases hs : scoredCandidates req.image_weight req.text_weight req.embedding db
      req.top_candidates with
  | nil =>
      rw [hs] at h
      simp at h
  | cons s rest =>
      rw [hs] at h
      simp only [Except.ok.injEq] at h
      exact ⟨s, rest, rfl, h.symm⟩

theorem identify_ok_decomp (req : IdentRequest) (deps : IdentifyDeps)
    (res : IdentResponse) (h : identify_species req deps = Except.ok res) :
    ∃ s rest,
      scoredIList req.image_weight req.text_weight req.color_weight req.embedding
          deps.speciesDb deps.colorRaw deps.ranked = s :: rest ∧
        res = responseOfI (s :: rest) := by
  unfold identify_species identifyTryBlock at h
  cases hr : deps.ranked with
  | nil =>
      rw [hr] at h
      simp at h
  | cons r rrest =>
      rw [hr] at h
      simp only at h
      cases hs : scoredIList req.image_weight req.text_weight req.color_weight
          req.embedding deps.speciesDb deps.colorRaw (r :: rrest) with
      | nil =>
          rw [hs] at h
          simp at h
      | cons s rest =>
          rw [hs] at h
          simp only [Except.ok.injEq] at h
          exact ⟨s, rest, rfl, h.symm⟩

theorem softmax_shift (x : ℝ) (xs : List ℝ) (c : ℝ) :
    softmax (x :: xs) =
      (x :: xs).map (fun s =>
        Real.exp (s - c) / ((x :: xs).map (fun t => Real.exp (t - c))).sum) := by
  have hS : 0 < (exp_scores (x :: xs)).sum := sum_exp_scores_pos x xs
  have hmap : (x :: xs).map (fun t => Real.exp (t - c)) =
      ((x :: xs).map Real.exp).map (fun e => e / Real.exp c) := by
    rw [List.map_map]
    apply List.map_congr_left
    intro t _
    simp [Real.exp_sub]
  have hsum : ((x :: xs).map (fun t => Real.exp (t - c))).sum =
      (exp_scores (x :: xs)).sum / Real.exp c := by
    rw [hmap, sum_map_div]
    rfl
  have hb : Real.exp c ≠ 0 := Real.exp_ne_zero c
  have hSne : (exp_scores (x :: xs)).sum ≠ 0 := ne_of_gt hS
  rw [hsum, softmax]
  unfold exp_scores
  rw [List.map_map]
  apply List.map_congr_left
  intro s _
  simp only [Function.comp_apply]
  rw [Real.exp_sub]
  rw [div_div_div_cancel_right₀]
  exact hb

theorem softmax_sum_one (x : ℝ) (xs : List ℝ) : (softmax (x :: xs)).sum = 1 := by
  have hS : 0 < (exp_scores (x :: xs)).sum := sum_exp_scores_pos x xs
  rw [softmax, sum_map_div]
  exact div_self (ne_of_gt hS)

theorem softmax_mem_bounds (x : ℝ) (xs : List ℝ) :
    ∀ p ∈ softmax (x :: xs), 0 < p ∧ p ≤ 1 := by
  have hS : 0 < (exp_scores (x :: xs)).sum := sum_exp_scores_pos x xs
  intro p hp
  rw [softmax] at hp
  rcases List.mem_map.mp hp with ⟨e, he, rfl⟩
  rcases List.mem_map.mp he with ⟨t, _, rfl⟩
  constructor
  · exact div_pos (Real.exp_pos t) hS
  · rw [div_le_one hS]
    exact List.single_le_sum (fun y hy => by
      rcases List.mem_map.mp hy with ⟨u, _, rfl⟩
      exact le_of_lt (Real.exp_pos u)) _ he

/-! ## Claim theorems -/

/-- C1: for every non-empty combined-score list, the probability normalizer
assigns `p[i] = exp(score[i] - max(score)) / sum_j exp(score[j] - max(score))`
(the code's un-shifted quotient equals the max-shifted form exactly over the
reals), the probabilities sum to 1.0 (so certainly within tolerance 1e-6),
and each probability lies in (0, 1]. -/
theorem c1_probability_normalizer (scores : List ℝ) (h : scores ≠ []) :
    softmax scores =
      scores.map (fun s =>
        Real.exp (s - listMax scores) /
          (scores.map (fun t => Real.exp (t - listMax scores))).sum) ∧
    (softmax scores).sum = 1 ∧
    |(softmax scores).sum - 1| ≤ 1 / 1000000 ∧
    ∀ p ∈ softmax scores, 0 < p ∧ p ≤ 1 := by
  cases scores with
  | nil => exact absurd rfl h
  | cons x xs =>
      refine ⟨softmax_shift x xs (listMax (x :: xs)), softmax_sum_one x xs, ?_,
        softmax_mem_bounds x xs⟩
      rw [softmax_sum_one x xs]
      norm_num

/-- Witness for C1 at the concrete score list `[0, 0]`. -/
theorem c1_probability_normalizer_witness :
    ([(0 : ℝ), 0] ≠ []) ∧
    (softmax [(0 : ℝ), 0] =
      [(0 : ℝ), 0].map (fun s =>
        Real.exp (s - listMax [(0 : ℝ), 0]) /
          ([(0 : ℝ), 0].map (fun t => Real.exp (t - listMax [(0 : ℝ), 0]))).sum) ∧
    (softmax [(0 : ℝ), 0]).sum = 1 ∧
    |(softmax [(0 : ℝ), 0]).sum - 1| ≤ 1 / 1000000 ∧
    ∀ p ∈ softmax [(0 : ℝ), 0], 0 < p ∧ p ≤ 1) :=
  ⟨by simp, c1_probability_normalizer [0, 0] (by simp)⟩

/-- C2 (code-bug evidence): both handlers compute `np.exp` of the RAW combined
scores.  At the single combined score 1e6 (within the claim's allowed
magnitude) the intermediate value is `exp(1e6)`, which exceeds the largest
finite IEEE-754 double, so the `float64` computation overflows to `inf` and
the probability becomes `inf/inf = NaN` — not finite, not summing to 1.0.
The max-shifted intermediates the spec mandates are all ≤ 1 at the same
input. -/
theorem c2_unshifted_exponential_overflow :
    exp_scores [(1000000 : ℝ)] = [Real.exp 1000000] ∧
    maxFiniteDouble < Real.exp 1000000 ∧
    ∀ y ∈ [(1000000 : ℝ)].map
        (fun s => Real.exp (s - listMax [(1000000 : ℝ)])), y ≤ 1 := by
  refine ⟨rfl, ?_, ?_⟩
  · have h1 : maxFiniteDouble < (2 : ℝ) ^ (1024 : ℕ) := by
      rw [maxFiniteDouble]
      have h2 : (0 : ℝ) < 2 ^ (-52 : ℤ) := by positivity
      have h3 : (0 : ℝ) < 2 ^ (1023 : ℕ) := by positivity
      nlinarith [pow_succ (2 : ℝ) 1023]
    have h4 : (2 : ℝ) ^ (1024 : ℕ) < Real.exp 1000000 := by
      have hpos : (0 : ℝ) < (2 : ℝ) ^ (1024 : ℕ) := by positivity
      have hlog : Real.log ((2 : ℝ) ^ (1024 : ℕ)) = 1024 * Real.log 2 := by
        rw [Real.log_pow]
        norm_num
      rw [← Real.exp_log hpos, hlog]
      apply Real.exp_lt_exp.mpr
      have hl2 : Real.log 2 ≤ 2 := Real.log_le_self (by norm_num)
      have hl0 : 0 ≤ Real.log 2 := Real.log_nonneg (by norm_num)
      nlinarith
    exact lt_trans h1 h4
  · intro y hy
    simp [listMax] at hy
    simp [hy]

/-- C8: with a single candidate the softmax is `[exp s / exp s] = [1]` for
every score `s`, so for every weight configuration the sole candidate of a
successful single-candidate rerank response has probability exactly 1.0 and
is the best match. -/
theorem c8_single_candidate_probability_one :
    (∀ s : ℝ, softmax [s] = [1]) ∧
    (∀ (req : RerankRequest) (db : Db) (res : RerankResponse),
      rerank_with_weights req db = Except.ok res →
        ∀ c : Candidate, res.top_candidates = [c] →
          c.probability = 1 ∧ res.best_match = c) := by
  have hone : ∀ s : ℝ, softmax [s] = [1] := by
    intro s
    simp [softmax, exp_scores]
  refine ⟨hone, ?_⟩
  intro req db res h c hc
  rcases rerank_ok_decomp req db res h with ⟨s0, rest, _, hres⟩
  subst hres
  rw [responseOf_top] at hc
  have hrest : rest = [] := by
    have hlen2 : rest.length + 1 = 1 := by
      have hlen := congrArg List.length hc
      rw [List.length_zipWith, softmax_length] at hlen
      simpa using hlen
    exact List.eq_nil_of_length_eq_zero (by omega)
  subst hrest
  have hp : softmax ([s0].map (fun s => s.combined)) = [1] := by
    rw [List.map_singleton]
    exact hone s0.combined
  rw [hp] at hc
  have hc2 : toCandidate s0 1 = c := by simpa using hc
  constructor
  · rw [← hc2]
    rfl
  · rw [responseOf_best, responseOf_top, hp, hc]
    rfl

/-- Witness for C8: the single-candidate fixture call yields probability 1. -/
theorem c8_single_candidate_probability_one_witness :
    fxRes.best_match = fxRes.top_candidates.getD 0 dummyCandidate ∧
    (fxRes.top_candidates.getD 0 dummyCandidate).probability = 1 := by
  have h := c8_single_candidate_probability_one.2 fxReq fxDb fxRes fxRes_ok
    (fxRes.top_candidates.getD 0 dummyCandidate) rfl
  exact ⟨h.2.symm, h.1⟩

/-- C6: in every successful response of either handler, `best_match` is the
candidate at the first index (in output order) attaining the maximum
probability — ties resolved by original ordering via `np.argmax` — and it is
an element of the returned candidate list. -/
theorem c6_best_match_first_argmax (rq : RerankRequest) (db : Db)
    (irq : IdentRequest) (deps : IdentifyDeps) :
    (∀ res : RerankResponse, rerank_with_weights rq db = Except.ok res →
      res.best_match ∈ res.top_candidates ∧
      ∃ i, isFirstMaxIdx (res.top_candidates.map (fun c => c.probability)) i ∧
        res.best_match = res.top_candidates.getD i dummyCandidate) ∧
    (∀ res : IdentResponse, identify_species irq deps = Except.ok res →
      res.best_match ∈ res.top_candidates ∧
      ∃ i, isFirstMaxIdx (res.top_candidates.map (fun c => c.probability)) i ∧
        res.best_match = res.top_candidates.getD i dummyCandidateI) := by
  constructor
  · intro res h
    rcases rerank_ok_decomp rq db res h with ⟨s0, rest, _, hres⟩
    subst hres
    have hlenp : (softmax ((s0 :: rest).map (fun s => s.combined))).length =
        rest.length + 1 := by
      rw [softmax_length]
      simp
    have hmap : (responseOf (s0 :: rest)).top_candidates.map (fun c => c.probability) =
        softmax ((s0 :: rest).map (fun s => s.combined)) := by
      rw [responseOf_top]
      exact zip_map_probability _ _ (by rw [hlenp]; simp)
    have htoplen : (responseOf (s0 :: rest)).top_candidates.length =
        (softmax ((s0 :: rest).map (fun s => s.combined))).length := by
      rw [responseOf_top, List.length_zipWith, hlenp]
      simp
    cases hp : softmax ((s0 :: rest).map (fun s => s.combined)) with
    | nil =>
        rw [hp] at hlenp
        simp at hlenp
    | cons p ptail =>
        have hfm := argmaxIdx_firstMax p ptail
        rw [← hp] at hfm
        refine ⟨?_, argmaxIdx (softmax ((s0 :: rest).map (fun s => s.combined))),
          ?_, ?_⟩
        · rw [responseOf_best]
          exact getD_mem_of_lt _ _ _ (by rw [htoplen]; exact hfm.1)
        · rw [hmap]
          exact hfm
        · exact responseOf_best (s0 :: rest)
  · intro res h
    rcases identify_ok_decomp irq deps res h with ⟨s0, rest, _, hres⟩
    subst hres
    have hlenp : (softmax ((s0 :: rest).map (fun s => s.combined))).length =
        rest.length + 1 := by
      rw [softmax_length]
      simp
    have hmap : (responseOfI (s0 :: rest)).top_candidates.map (fun c => c.probability) =
        softmax ((s0 :: rest).map (fun s => s.combined)) := by
      rw [responseOfI_top]
      exact zipI_map_probability _ _ (by rw [hlenp]; simp)
    have htoplen : (responseOfI (s0 :: rest)).top_candidates.length =
        (softmax ((s0 :: rest).map (fun s => s.combined))).length := by
      rw [responseOfI_top, List.length_zipWith, hlenp]
      simp
    cases hp : softmax ((s0 :: rest).map (fun s => s.combined)) with
    | nil =>
        rw [hp] at hlenp
        simp at hlenp
    | cons p ptail =>
        have hfm := argmaxIdx_firstMax p ptail
        rw [← hp] at hfm
        refine ⟨?_, argmaxIdx (softmax ((s0 :: rest).map (fun s => s.combined))),
          ?_, ?_⟩
        · rw [responseOfI_best]
          exact getD_mem_of_lt _ _ _ (by rw [htoplen]; exact hfm.1)
        · rw [hmap]
          exact hfm
        · exact responseOfI_best (s0 :: rest)

/-- Witness for C6: the fixture calls of both handlers return a best match
belonging to the returned candidate list. -/
theorem c6_best_match_first_argmax_witness :
    fxRes.best_match ∈ fxRes.top_candidates ∧
    fxIRes.best_match ∈ fxIRes.top_candidates :=
  ⟨((c6_best_match_first_argmax fxReq fxDb fxIReq fxIDeps).1 fxRes fxRes_ok).1,
   ((c6_best_match_first_argmax fxReq fxDb fxIReq fxIDeps).2 fxIRes fxIRes_ok).1⟩

/-- C4 (code-bug evidence): with an empty candidate set, the rerank handler
does return the claimed 404; but the identification handler raises its own
`HTTPException(404, "No candidates found")` INSIDE the `try:` block, and
`except Exception` (which `HTTPException` subclasses) swallows it and
re-raises HTTP 500 "DB operation failed: 404: No candidates found" — a server
error, not the claimed "not found" 4xx. -/
theorem c4_empty_candidates_status :
    errStatus (rerank_with_weights c4RReq fxDb) = some 404 ∧
    errStatus (identify_species c4IReq c4IDeps) = some 500 ∧
    identify_species c4IReq c4IDeps =
      Except.error ⟨500, "DB operation failed: 404: No candidates found"⟩ := by
  refine ⟨rfl, rfl, ?_⟩
  rfl

/-- C10: `rerank_with_weights` silently skips every requested id whose table
row is missing or has a null embedding: the call fails (with the 404) exactly
when no requested id is resolvable, and on success the returned list has one
candidate per resolvable id (hence possibly strictly fewer than requested). -/
theorem c10_unresolvable_candidates_skipped (req : RerankRequest) (db : Db) :
    (req.top_candidates.filter (fun id => resolvable db id) = [] →
      rerank_with_weights req db =
        Except.error ⟨404, "No valid candidates with embeddings found"⟩) ∧
    (∀ res, rerank_with_weights req db = Except.ok res →
      res.top_candidates.length =
        (req.top_candidates.filter (fun id => resolvable db id)).length ∧
      res.top_candidates.length ≤ req.top_candidates.length) ∧
    (req.top_candidates.filter (fun id => resolvable db id) ≠ [] →
      ∃ res, rerank_with_weights req db = Except.ok res) := by
  have hsc := scoredCandidates_eq req.image_weight req.text_weight req.embedding db
    req.top_candidates
  refine ⟨?_, ?_, ?_⟩
  · intro hf
    unfold rerank_with_weights
    rw [hsc, hf]
    rfl
  · intro res h
    rcases rerank_ok_decomp req db res h with ⟨s0, rest, hs, hres⟩
    subst hres
    have hlen : (s0 :: rest).length =
        (req.top_candidates.filter (fun id => resolvable db id)).length := by
      have h2 := congrArg List.length (hsc.symm.trans hs)
      simpa using h2.symm
    constructor
    · rw [responseOf_top, List.length_zipWith, softmax_length, List.length_map,
        min_self]
      exact hlen
    · rw [responseOf_top, List.length_zipWith, softmax_length, List.length_map,
        min_self, hlen]
      exact List.length_filter_le _ _
  · intro hne
    cases hf : req.top_candidates.filter (fun id => resolvable db id) with
    | nil => exact absurd hf hne
    | cons a l =>
        refine ⟨responseOf ((a :: l).map
          (scoreOf req.image_weight req.text_weight req.embedding db)), ?_⟩
        unfold rerank_with_weights
        rw [hsc, hf]
        rfl

/-- Witness for C10 at a request with one resolvable and one unknown id: the
response keeps exactly the one resolvable candidate of the two requested. -/
theorem c10_unresolvable_candidates_skipped_witness :
    c10Res.top_candidates.length =
      (c10Req.top_candidates.filter (fun id => resolvable c10Db id)).length ∧
    c10Res.top_candidates.length ≤ c10Req.top_candidates.length :=
  (c10_unresolvable_candidates_skipped c10Req c10Db).2.1 c10Res c10Res_ok

theorem cos_unit_same : cosine_similarity [(1 : ℝ), 0] [1, 0] = 1 := by
  unfold cosine_similarity normR dotR
  norm_num [Real.sqrt_one]

theorem cos_unit_orth : cosine_similarity [(1 : ℝ), 0] [0, 1] = 0 := by
  unfold cosine_similarity normR dotR
  norm_num

/-- C7 counterexample: a successful rerank call whose returned candidate list
carries combined scores `[0, 1]` in that order — strictly increasing, so the
returned `top_candidates` sequence is NOT ordered by non-increasing combined
score. -/
theorem c7_counterexample :
    (rerank_with_weights c7Req c7Db).map
        (fun r => r.top_candidates.map (fun c => c.combined_score)) =
      Except.ok [0, 1] ∧
    ¬ List.Chain' (fun a b : ℝ => b ≤ a) [(0 : ℝ), 1] := by
  constructor
  · have h1 : (rerank_with_weights c7Req c7Db).map
        (fun r => r.top_candidates.map (fun c => c.combined_score)) =
        Except.ok
          [1 * cosine_similarity [(1 : ℝ), 0] [0, 1] +
            0 * cosine_similarity [(1 : ℝ), 0] [1, 0],
           1 * cosine_similarity [(1 : ℝ), 0] [1, 0] +
            0 * cosine_similarity [(1 : ℝ), 0] [1, 0]] := rfl
    rw [h1, cos_unit_same, cos_unit_orth]
    norm_num
  · simp [List.chain'_cons]

/-- C7 corrected: a successful rerank response returns the candidates in the
REQUEST's order, restricted to the resolvable ids, and a successful
identification response returns them in the retrieval collaborator's order,
restricted to the rows with a usable text embedding — neither handler sorts
by combined score, so ranking information is carried only by the
per-candidate scores and by `best_match`. -/
theorem c7_output_preserves_request_order (req : RerankRequest) (db : Db)
    (irq : IdentRequest) (deps : IdentifyDeps) :
    (∀ res, rerank_with_weights req db = Except.ok res →
      res.top_candidates.map (fun c => c.species) =
        (req.top_candidates.filter (fun id => resolvable db id)).map
          (fun id =>
            (scoreOf req.image_weight req.text_weight req.embedding db
              id).species)) ∧
    (∀ res, identify_species irq deps = Except.ok res →
      res.top_candidates.map (fun c => c.species) =
        (deps.ranked.filter (fun r => textResolvable deps.speciesDb r.species)).map
          (fun r =>
            (scoreOfI irq.image_weight irq.text_weight irq.color_weight
              irq.embedding deps.speciesDb deps.colorRaw r).species)) := by
  constructor
  · intro res h
    rcases rerank_ok_decomp req db res h with ⟨s0, rest, hs, hres⟩
    subst hres
    rw [responseOf_top, zip_map_species _ _ (by rw [softmax_length]; simp)]
    have hsc := scoredCandidates_eq req.image_weight req.text_weight req.embedding
      db req.top_candidates
    rw [← hs, hsc, List.map_map]
    rfl
  · intro res h
    rcases identify_ok_decomp irq deps res h with ⟨s0, rest, hs, hres⟩
    subst hres
    rw [responseOfI_top, zipI_map_species _ _ (by rw [softmax_length]; simp)]
    have hsc := scoredIList_eq irq.image_weight irq.text_weight irq.color_weight
      irq.embedding deps.speciesDb deps.colorRaw deps.ranked
    rw [← hs, hsc, List.map_map]
    rfl

/-- Witness for C7's corrected statement at the rerank fixture call. -/
theorem c7_output_preserves_request_order_witness :
    fxRes.top_candidates.map (fun c => c.species) =
      (fxReq.top_candidates.filter (fun id => resolvable fxDb id)).map
        (fun id =>
          (scoreOf fxReq.image_weight fxReq.text_weight fxReq.embedding fxDb
            id).species) :=
  (c7_output_preserves_request_order fxReq fxDb fxIReq fxIDeps).1 fxRes fxRes_ok

/-- C9 counterexample: the same rerank request against two database states
that differ only in the stored image embedding yields different responses
(image similarity 1 against the first table, 0 against the second): the
handler reads the species table and recomputes similarities, rather than
consuming preserved similarity values (the request carries none). -/
theorem c9_counterexample :
    (rerank_with_weights c9Req c9DbA).map
        (fun r => r.top_candidates.map (fun c => c.image_similarity)) =
      Except.ok [1] ∧
    (rerank_with_weights c9Req c9DbB).map
        (fun r => r.top_candidates.map (fun c => c.image_similarity)) =
      Except.ok [0] ∧
    rerank_with_weights c9Req c9DbA ≠ rerank_with_weights c9Req c9DbB := by
  have hA : (rerank_with_weights c9Req c9DbA).map
      (fun r => r.top_candidates.map (fun c => c.image_similarity)) =
      Except.ok [cosine_similarity [(1 : ℝ), 0] [1, 0]] := rfl
  have hB : (rerank_with_weights c9Req c9DbB).map
      (fun r => r.top_candidates.map (fun c => c.image_similarity)) =
      Except.ok [cosine_similarity [(1 : ℝ), 0] [0, 1]] := rfl
  rw [cos_unit_same] at hA
  rw [cos_unit_orth] at hB
  refine ⟨hA, hB, fun heq => ?_⟩
  rw [heq] at hA
  have hcontra := hA.symm.trans hB
  simp at hcontra

/-- C9 corrected: the re-weighting handler consumes only species identifiers
from the prior result; it re-reads each species' row from the embedding table
and RECOMPUTES both similarities as cosines of the request's embedding
against the freshly fetched stored embeddings, then recombines and
renormalizes.  The response is the `scoreOf` image of the resolvable ids, and
each kept candidate's similarities are literally `cosine_similarity` against
the database row's embeddings. -/
theorem c9_recomputes_from_database (req : RerankRequest) (db : Db) :
    (∀ res, rerank_with_weights req db = Except.ok res →
      res.top_candidates.map
          (fun c => (c.species, c.image_similarity, c.text_similarity)) =
        (req.top_candidates.filter (fun id => resolvable db id)).map
          (fun id =>
            ((scoreOf req.image_weight req.text_weight req.embedding db id).species,
             (scoreOf req.image_weight req.text_weight req.embedding db id).img,
             (scoreOf req.image_weight req.text_weight req.embedding db id).txt))) ∧
    (∀ (id : String) (row : DbRow), resolvable db id = true → db id = some row →
      (scoreOf req.image_weight req.text_weight req.embedding db id).img =
        cosine_similarity req.embedding (row.image_embedding.getD []) ∧
      (scoreOf req.image_weight req.text_weight req.embedding db id).txt =
        cosine_similarity req.embedding (row.text_embedding.getD [])) := by
  constructor
  · intro res h
    rcases rerank_ok_decomp req db res h with ⟨s0, rest, hs, hres⟩
    subst hres
    rw [responseOf_top, zip_map_sims _ _ (by rw [softmax_length]; simp)]
    have hsc := scoredCandidates_eq req.image_weight req.text_weight req.embedding db
      req.top_candidates
    rw [← hs, hsc, List.map_map]
    rfl
  · intro id row hres hdb
    have hres2 : (row.image_embedding.isSome && row.text_embedding.isSome) = true := by
      rw [resolvable, hdb] at hres
      simpa using hres
    cases hie : row.image_embedding with
    | none =>
        rw [hie] at hres2
        simp at hres2
    | some ie =>
        cases hte : row.text_embedding with
        | none =>
            rw [hte] at hres2
            simp at hres2
        | some te =>
            rw [scoreOf, hdb]
            simp [hie, hte]

/-- Witness for C9's corrected statement at the rerank fixture call. -/
theorem c9_recomputes_from_database_witness :
    fxRes.top_candidates.map
        (fun c => (c.species, c.image_similarity, c.text_similarity)) =
      (fxReq.top_candidates.filter (fun id => resolvable fxDb id)).map
        (fun id =>
          ((scoreOf fxReq.image_weight fxReq.text_weight fxReq.embedding fxDb
              id).species,
           (scoreOf fxReq.image_weight fxReq.text_weight fxReq.embedding fxDb
              id).img,
           (scoreOf fxReq.image_weight fxReq.text_weight fxReq.embedding fxDb
              id).txt)) :=
  (c9_recomputes_from_database fxReq fxDb).1 fxRes fxRes_ok

/-- C3 (spec-modelled: `tools/color_utils.py` with `compute_color_similarity`
is not under `src/`; its per-candidate output is modelled as an optional raw
similarity, defaulted by `colorSimilarityValue` per the spec): every candidate
of a successful identification response carries
`combined = image_weight*image_sim + text_weight*text_sim + color_weight*color_sim`,
a candidate without color data gets color similarity exactly 0.0, and absent
color data never changes the call's success or failure status (no
missing-data error), whatever the weights — including zero or negative
ones, which the statement quantifies over through the request.  The rerank
handler's two-signal combination line is the color-absent instance; the last
conjunct covers it. -/
theorem c3_signal_combiner (req : IdentRequest) (deps : IdentifyDeps)
    (rq : RerankRequest) (db : Db) :
    (∀ res, identify_species req deps = Except.ok res →
      ∀ c ∈ res.top_candidates,
        c.combined_score = req.image_weight * c.image_similarity +
          req.text_weight * c.text_similarity +
          req.color_weight * c.color_similarity ∧
        (deps.colorRaw c.common_name = none → c.color_similarity = 0)) ∧
    errStatus (identify_species req deps) =
      errStatus (identify_species req ⟨deps.ranked, deps.speciesDb, fun _ => none⟩) ∧
    (∀ res, rerank_with_weights rq db = Except.ok res →
      ∀ c ∈ res.top_candidates,
        c.combined_score = rq.image_weight * c.image_similarity +
          rq.text_weight * c.text_similarity) := by
  refine ⟨?_, ?_, ?_⟩
  · intro res h c hc
    rcases identify_ok_decomp req deps res h with ⟨s0, rest, hs, hres⟩
    subst hres
    rw [responseOfI_top] at hc
    rcases mem_zipWith_decomp toCandidateI _ _ c hc with ⟨s, hsm, p, _, rfl⟩
    have hm : s ∈ scoredIList req.image_weight req.text_weight req.color_weight
        req.embedding deps.speciesDb deps.colorRaw deps.ranked := by
      rw [hs]
      exact hsm
    have hcomb := scoredIList_combined req.image_weight req.text_weight
      req.color_weight req.embedding deps.speciesDb deps.colorRaw deps.ranked s hm
    exact ⟨hcomb.1, hcomb.2⟩
  · unfold identify_species identifyTryBlock
    cases hr : deps.ranked with
    | nil => rfl
    | cons r rest =>
        simp only
        have h1 := scoredIList_eq req.image_weight req.text_weight req.color_weight
          req.embedding deps.speciesDb deps.colorRaw (r :: rest)
        have h2 := scoredIList_eq req.image_weight req.text_weight req.color_weight
          req.embedding deps.speciesDb (fun _ => none) (r :: rest)
        rw [h1, h2]
        cases hf : (r :: rest).filter
            (fun rr => textResolvable deps.speciesDb rr.species) with
        | nil => rfl
        | cons a l => rfl
  · intro res h c hc
    rcases rerank_ok_decomp rq db res h with ⟨s0, rest, hs, hres⟩
    subst hres
    rw [responseOf_top] at hc
    rcases mem_zipWith_decomp toCandidate _ _ c hc with ⟨s, hsm, p, _, rfl⟩
    have hm : s ∈ scoredCandidates rq.image_weight rq.text_weight rq.embedding db
        rq.top_candidates := by
      rw [hs]
      exact hsm
    exact scoredCandidates_combined rq.image_weight rq.text_weight rq.embedding db
      rq.top_candidates s hm

/-- Witness for C3: the head candidate of the identification fixture call
satisfies the combination formula. -/
theorem c3_signal_combiner_witness :
    (fxIRes.top_candidates.getD 0 dummyCandidateI).combined_score =
      fxIReq.image_weight *
          (fxIRes.top_candidates.getD 0 dummyCandidateI).image_similarity +
        fxIReq.text_weight *
          (fxIRes.top_candidates.getD 0 dummyCandidateI).text_similarity +
        fxIReq.color_weight *
          (fxIRes.top_candidates.getD 0 dummyCandidateI).color_similarity :=
  ((c3_signal_combiner fxIReq fxIDeps fxReq fxDb).1 fxIRes fxIRes_ok
    (fxIRes.top_candidates.getD 0 dummyCandidateI)
    (getD_mem_of_lt _ _ _ Nat.zero_lt_one)).1

theorem fv_mul_fin_nan (x : ℝ) :
    FloatVal.mul (FloatVal.fin x) FloatVal.nan = FloatVal.nan := rfl

theorem fv_add_nan_left (v : FloatVal) :
    FloatVal.add FloatVal.nan v = FloatVal.nan := by
  cases v <;> rfl

theorem cosineF_zero_vector_nan : cosineF [(0 : ℝ)] [1] = FloatVal.nan := by
  have hx : dotR [(0 : ℝ)] [1] = 0 := by
    simp [dotR]
  have hy : normR [(0 : ℝ)] * normR [1] = 0 := by
    simp [normR, dotR]
  rw [cosineF, hx, hy]
  simp [FloatVal.div]

theorem c5_scoredF_eval :
    scoredCandidatesF c5Req.image_weight c5Req.text_weight c5Req.embedding c5Db
        c5Req.top_candidates =
      [(⟨"Gray Wolf", "canis-lupus", "NA0528", 0, 0, 0⟩,
        FloatVal.nan, FloatVal.nan, FloatVal.nan)] := by
  have h1 : scoredCandidatesF c5Req.image_weight c5Req.text_weight c5Req.embedding
      c5Db c5Req.top_candidates =
      [(⟨"Gray Wolf", "canis-lupus", "NA0528", 0, 0, 0⟩,
        cosineF [(0 : ℝ)] [1], cosineF [(0 : ℝ)] [1],
        FloatVal.add
          (FloatVal.mul (FloatVal.fin c5Req.image_weight) (cosineF [(0 : ℝ)] [1]))
          (FloatVal.mul (FloatVal.fin c5Req.text_weight)
            (cosineF [(0 : ℝ)] [1])))] := rfl
  rw [h1, cosineF_zero_vector_nan, fv_mul_fin_nan, fv_mul_fin_nan, fv_add_nan_left]

/-- C5 counterexample: a request whose zero embedding makes the cosine
similarity `0.0/0.0 = NaN`.  The call is not rejected: it succeeds, with the
NaN similarity carried into combination, softmax normalization and argmax
selection, and both the returned image similarity and the returned
probability are NaN — no `InvalidSimilarityValue` (or any other) error is
raised before combination. -/
theorem c5_counterexample :
    (rerankF c5Req c5Db).map
        (fun r => r.top_candidates.map (fun c => c.image_similarity)) =
      Except.ok [FloatVal.nan] ∧
    (rerankF c5Req c5Db).map
        (fun r => r.top_candidates.map (fun c => c.probability)) =
      Except.ok [FloatVal.nan] := by
  have hr : rerankF c5Req c5Db =
      Except.ok
        ⟨[⟨"Gray Wolf", "canis-lupus", "NA0528", FloatVal.nan, FloatVal.nan,
            FloatVal.nan, FloatVal.nan⟩],
         ⟨"Gray Wolf", "canis-lupus", "NA0528", FloatVal.nan, FloatVal.nan,
            FloatVal.nan, FloatVal.nan⟩⟩ := by
    unfold rerankF
    rw [c5_scoredF_eval]
    rfl
  rw [hr]
  exact ⟨rfl, rfl⟩

/-- C5 corrected: the rerank handler performs no finiteness validation at
all — in the IEEE special-value model its only possible failure is the
empty-candidate-set 404; a candidate whose similarity evaluates to NaN or
±Infinity is never rejected (combination, softmax and argmax then run on the
non-finite value, as the counterexample shows concretely). -/
theorem c5_no_nonfinite_rejection (req : RerankRequest) (db : Db) :
    (rerankF req db).isOk = true ∨
      rerankF req db =
        Except.error ⟨404, "No valid candidates with embeddings found"⟩ := by
  unfold rerankF
  cases scoredCandidatesF req.image_weight req.text_weight req.embedding db
      req.top_candidates with
  | nil =>
      right
      rfl
  | cons s rest =>
      left
      rfl
